import Mathlib

/-!
Shallow embedding of `scripts/train_asl.py`, the single source file of the
repository: a training/export pipeline turning a JSON array of hand-landmark
samples into a browser-consumable MLP weight file.

Modelling conventions:
* JSON values are the inductive `JVal`; numbers are represented by `ℚ`
  (the claims never depend on floating-point rounding).
* Python exceptions become `Except String` / `Option` results.
* The TensorFlow/Keras training call is not source code of this repository;
  only the facts the script relies on are modelled: a trained instance of the
  network built by `make_model` consists of three dense layers whose kernels
  have shape (input_size, units) and whose activation records the configured
  activation function.  A "trained model" is therefore an arbitrary
  `List TrainedDense` satisfying the shape predicate `realizes`.
-/

namespace AslTrain

/-- JSON values as produced by Python `json.load`. -/
inductive JVal where
  | jnull : JVal
  | jbool : Bool → JVal
  | jnum : ℚ → JVal
  | jstr : String → JVal
  | jarr : List JVal → JVal
  | jobj : List (String × JVal) → JVal

/-- Python `dict.get` on a JSON object.  `json.load` keeps the last occurrence
of a duplicated key, so lookup scans from the right. -/
def dictGet (fields : List (String × JVal)) (k : String) : Option JVal :=
  (fields.reverse.find? (fun p => p.1 == k)).map (fun p => p.2)

mutual

/-- Models Python `str()` on a JSON value as used on the `label` field.
Strings are returned unchanged; `None`/`True`/`False` render as in Python;
numbers render via `ℚ`'s decimal-free notation and containers render with
their brackets.  The rendering of non-strings is approximate (Python quotes
nested strings, prints floats with a decimal point), but every non-string
value renders — here as in Python — to a string that is never a single
alphabetic character, which is the only property the pipeline inspects. -/
def pyStr : JVal → String
  | .jnull => "None"
  | .jbool b => if b then "True" else "False"
  | .jnum q => toString q
  | .jstr s => s
  | .jarr xs => "[" ++ pyStrList xs ++ "]"
  | .jobj fs => "\x7b" ++ pyStrFields fs ++ "\x7d"

/-- Comma-separated rendering of a JSON array's elements. -/
def pyStrList : List JVal → String
  | [] => ""
  | [v] => pyStr v
  | v :: vs => pyStr v ++ ", " ++ pyStrList vs

/-- Comma-separated rendering of a JSON object's fields. -/
def pyStrFields : List (String × JVal) → String
  | [] => ""
  | [(k, v)] => k ++ ": " ++ pyStr v
  | (k, v) :: fs => k ++ ": " ++ pyStr v ++ ", " ++ pyStrFields fs

end

/-- Python `str.upper()` (ASCII fragment): uppercase every character. -/
def pyUpper (s : String) : String :=
  ⟨s.data.map Char.toUpper⟩

/-- Whitespace stripped from both ends of a character list. -/
def stripChars (cs : List Char) : List Char :=
  ((cs.dropWhile Char.isWhitespace).reverse.dropWhile Char.isWhitespace).reverse

/-- Python `str.strip()` with no argument: drop surrounding whitespace. -/
def pyStrip (s : String) : String :=
  ⟨stripChars s.data⟩

/-- Python string comparison: lexicographic by character code point. -/
def strLe (a b : String) : Prop :=
  a.data ≤ b.data

instance : DecidableRel strLe := fun a b => by
  unfold strLe; infer_instance

instance : IsTotal String strLe := ⟨fun a b => le_total a.data b.data⟩

instance : IsTrans String strLe := ⟨fun _ _ _ h h' => le_trans h h'⟩

/-- Digit characters folded into a natural number, as in decimal notation. -/
def digitsToNat (cs : List Char) : ℕ :=
  cs.foldl (fun n c => 10 * n + (c.toNat - 48)) 0

/-- Models Python `float(s)` on a string: surrounding whitespace is stripped,
then an optional sign, an integer part and an optional fractional part are
accepted.  Python additionally accepts exponents and `inf`/`nan` spellings;
those extra forms are not modelled, and no claim depends on them. -/
def parseDecimal (s : String) : Option ℚ :=
  let t := stripChars s.data
  let signAndRest : ℚ × List Char :=
    match t with
    | '-' :: r => (-1, r)
    | '+' :: r => (1, r)
    | r => (1, r)
  let rest := signAndRest.2
  let intPart := rest.takeWhile Char.isDigit
  let after := rest.dropWhile Char.isDigit
  match after with
  | [] =>
      if intPart.isEmpty then none
      else some (signAndRest.1 * (digitsToNat intPart : ℚ))
  | '.' :: frac =>
      if frac.all Char.isDigit && !(intPart.isEmpty && frac.isEmpty) then
        some (signAndRest.1 *
          ((digitsToNat intPart : ℚ) + (digitsToNat frac : ℚ) / (10 ^ frac.length : ℚ)))
      else none
  | _ => none

/-- Models Python `float(v)` on a JSON value: numbers convert to themselves,
booleans to 0/1, numeric strings parse, and every other value raises
`TypeError`/`ValueError` (here: `none`), which `load_samples` catches. -/
def pyFloat (v : JVal) : Option ℚ :=
  match v with
  | .jnum q => some q
  | .jbool b => some (if b then 1 else 0)
  | .jstr s => parseDecimal s
  | _ => none

/-- Models the list comprehension `[float(v) for v in x]` with its enclosing
`try`/`except`: the whole vector converts, or the row is rejected. -/
def mapFloat : List JVal → Option (List ℚ)
  | [] => some []
  | v :: vs =>
      match pyFloat v, mapFloat vs with
      | some q, some qs => some (q :: qs)
      | _, _ => none

/-- One loaded sample: normalized label, 63-element feature vector, original
index in the input array (Python keeps `idx` from `enumerate`). -/
structure Sample where
  label : String
  x : List ℚ
  idx : ℕ
deriving Repr, DecidableEq

/-- Letters excluded by default (`DEFAULT_EXCLUDED = {"J", "Z"}`). -/
def DEFAULT_EXCLUDED : List String := ["J", "Z"]

/-- Label normalization `str(row.get("label", "")).upper().strip()`.
`pyUpper`/`pyStrip` model the ASCII fragment of the Python string methods;
the Unicode-only differences do not affect any stated property. -/
def normLabel (fields : List (String × JVal)) : String :=
  pyStrip (pyUpper (pyStr ((dictGet fields "label").getD (.jstr ""))))

/-- The check `len(label) == 1 and label.isalpha()`. -/
def isSingleAlpha (s : String) : Bool :=
  s.length == 1 && s.toList.all Char.isAlpha

/-- Vector extraction: `x = row.get("x")`, then
`isinstance(x, list) and len(x) == 63` and elementwise `float` conversion. -/
def rowVec (fields : List (String × JVal)) : Option (List ℚ) :=
  match dictGet fields "x" with
  | some (.jarr xs) => if xs.length == 63 then mapFloat xs else none
  | _ => none

/-- One iteration of the row loop of `load_samples`: returns the sample kept
for this row, or `none` when the row is skipped by a `continue`. -/
def parseRow (include_jz : Bool) (idx : ℕ) (row : JVal) : Option Sample :=
  match row with
  | .jobj fields =>
      let label := normLabel fields
      if !(isSingleAlpha label) then none
      else if !include_jz && DEFAULT_EXCLUDED.contains label then none
      else
        match rowVec fields with
        | some vec => some ⟨label, vec, idx⟩
        | none => none
  | _ => none

/-- The samples kept from a JSON array, in order, with original indices. -/
def validSamples (include_jz : Bool) (rows : List JVal) : List Sample :=
  rows.enum.filterMap (fun p => parseRow include_jz p.1 p.2)

/-- `load_samples` on an already-parsed JSON document (the file-existence and
JSON-syntax errors happen before the code modelled here).  Rejects non-array
documents, filters rows, and raises when nothing survives the filter. -/
def load_samples (include_jz : Bool) (raw : JVal) : Except String (List Sample) :=
  match raw with
  | .jarr rows =>
      let samples := validSamples include_jz rows
      if samples.isEmpty then .error "No valid samples found after filtering"
      else .ok samples
  | _ => .error "Dataset must be a JSON array of samples"

/-- The sorted distinct labels, `sorted({s["label"] for s in samples})`.
Python sorts strings lexicographically by code point, which is the order of
the order `strLe`; the set is modelled by `dedup`, the sort by insertion
sort (any sort of the same order agrees on it). -/
def sortedLabels (samples : List Sample) : List String :=
  ((samples.map Sample.label).dedup).insertionSort strLe

/-- The dictionary comprehension `{label: i for i, label in enumerate(labels)}`
of `build_xy`, as a lookup function: the labels are pairwise distinct, so the
dictionary sends a label to its position in the list. -/
def label_to_idx (labels : List String) (l : String) : Option ℕ :=
  labels.indexOf? l

/-- `build_xy`: feature matrix `X`, class-id vector `y` (the dictionary lookup
`label_to_idx[s["label"]]`, i.e. the index of the sample's label in the sorted
distinct-label list), and the sorted label list. -/
def build_xy (samples : List Sample) : List (List ℚ) × List ℕ × List String :=
  let labels := sortedLabels samples
  (samples.map Sample.x, samples.map (fun s => labels.indexOf s.label), labels)

/-- Keras activation functions that occur in this script. -/
inductive Activation where
  | relu : Activation
  | softmax : Activation
  | linear : Activation
deriving Repr, DecidableEq

/-- Python-visible name of an activation function (`activation.__name__`,
with `"linear"` as the default Keras `Dense` activation's name). -/
def actName : Activation → String
  | .relu => "relu"
  | .softmax => "softmax"
  | .linear => "linear"

/-- Architecture description of a sequential dense network: input size, then
for each dense layer its name, unit count and activation. -/
structure ModelSpec where
  inputSize : ℕ
  layers : List (String × ℕ × Activation)
deriving Repr

/-- `make_model(num_classes)`: the fixed topology
input(63) → dense(128, relu) → dense(64, relu) → dense(num_classes, softmax).
The optimizer/loss/metrics configuration has no bearing on any claim. -/
def make_model (num_classes : ℕ) : ModelSpec :=
  { inputSize := 63
    layers := [("dense_128", 128, .relu), ("dense_64", 64, .relu),
               ("dense_logits", num_classes, .softmax)] }

/-- A trained dense layer as Keras exposes it to `export_browser_model`:
`layer.get_weights()` returns a kernel of shape (input_size, units) — row i
holds the outgoing weights of input unit i — and a bias of length units. -/
structure TrainedDense where
  name : String
  act : Activation
  kernel : List (List ℚ)
  bias : List ℚ
deriving Repr, DecidableEq

/-- Shape check for a kernel: `ins` rows, each of length `outs`. -/
def kernelShapeOk (w : List (List ℚ)) (ins outs : ℕ) : Bool :=
  w.length == ins && w.all (fun row => row.length == outs)

/-- How one trained layer realizes one layer of the architecture. -/
def layerWF (l : TrainedDense) (name : String) (act : Activation)
    (ins outs : ℕ) : Bool :=
  l.name == name && l.act == act && kernelShapeOk l.kernel ins outs &&
    l.bias.length == outs

/-- Layer-by-layer realization, threading the current input size. -/
def realizesFrom : ℕ → List (String × ℕ × Activation) → List TrainedDense → Bool
  | _, [], [] => true
  | ins, (name, units, act) :: specs, l :: ls =>
      layerWF l name act ins units && realizesFrom units specs ls
  | _, _ :: _, [] => false
  | _, [], _ :: _ => false

/-- A trained model (the `Dense` members of `model.layers`, in order)
realizes an architecture when the layer list matches it shape for shape.
This is the contract Keras guarantees for a model built by `make_model` and
then trained: training changes only the numeric weight values. -/
def realizes (spec : ModelSpec) (m : List TrainedDense) : Bool :=
  realizesFrom spec.inputSize spec.layers m

/-- One entry of the exported `layers` list. -/
structure ExportLayer where
  name : String
  input_size : ℕ
  output_size : ℕ
  activation : String
  weights : List (List ℚ)
  biases : List ℚ
deriving Repr, DecidableEq

/-- The exported JSON object. -/
structure Payload where
  model_type : String
  input_size : ℕ
  labels : List String
  layers : List ExportLayer
deriving Repr, DecidableEq

/-- Serialization of one dense layer in `export_browser_model`:
`input_size`/`output_size` are `weights.shape[0]`/`weights.shape[1]` (for a
list-of-rows matrix: the row count and the common row length), the activation
tag is `"relu" if activation == "relu" else "linear"`, and
`weights.tolist()`/`biases.tolist()` serialize the arrays unchanged. -/
def exportLayerOf (l : TrainedDense) : ExportLayer :=
  { name := l.name
    input_size := l.kernel.length
    output_size := (l.kernel.headD []).length
    activation := if actName l.act == "relu" then "relu" else "linear"
    weights := l.kernel
    biases := l.bias }

/-- `export_browser_model` without the file write: the JSON object whose
serialization is written to the output path. -/
def export_browser_model (m : List TrainedDense) (labels : List String) :
    Payload :=
  { model_type := "mlp"
    input_size := 63
    labels := labels
    layers := m.map exportLayerOf }

/-- Keras dense-layer semantics, `output = input @ kernel + bias`:
output j is bias j plus the sum over i of input i times kernel i j.  This is
the sense in which kernel row i holds the outgoing weights of input unit i. -/
def denseOutput (kernel : List (List ℚ)) (bias : List ℚ) (input : List ℚ) :
    List ℚ :=
  bias.enum.map
    (fun p => p.2 + ((input.zip kernel).map (fun q => q.1 * q.2.getD p.1 0)).sum)

/-- The per-label sample-count check of `main`:
`counts = {label: (y == i).sum() for i, label in enumerate(labels)}`, then the
first label whose count is below 2 raises. -/
def checkCounts (labels : List String) (y : List ℕ) : Except String Unit :=
  match labels.enum.find?
      (fun p => decide (y.countP (fun j => j == p.1) < 2)) with
  | some p =>
      .error ("Label " ++ p.2 ++ " has too few samples. Add more samples for stratified split.")
  | none => .ok ()

/-- The pipeline of `main` up to the file write, with the training call
abstracted by `train : ℕ → List TrainedDense` (mapping the class count to the
trained dense layers; see `realizes`).  Errors terminate the run before any
training or file output; on success the result is the payload written to the
output file. -/
def pipeline (include_jz : Bool) (raw : JVal)
    (train : ℕ → List TrainedDense) : Except String Payload := do
  let samples ← load_samples include_jz raw
  let labels := sortedLabels samples
  let y := samples.map (fun s => labels.indexOf s.label)
  if labels.length < 2 then
    .error "Need at least 2 distinct labels to train"
  else do
    checkCounts labels y
    pure (export_browser_model (train labels.length) labels)

/-- Truth of "this run ended in a raised error". -/
def isErr : Except String Payload → Bool
  | .error _ => true
  | .ok _ => false

instance : DecidableEq (Except String Payload) := fun x y =>
  match x, y with
  | .error a, .error b =>
      if h : a = b then .isTrue (by rw [h]) else .isFalse (by simp [h])
  | .ok a, .ok b =>
      if h : a = b then .isTrue (by rw [h]) else .isFalse (by simp [h])
  | .error _, .ok _ => .isFalse (by simp)
  | .ok _, .error _ => .isFalse (by simp)

/-- Pseudo-random sort key derived from the seed, linear-congruential style. -/
def splitKey (seed i : ℕ) : ℕ :=
  (1103515245 * (seed + i) + 12345) % 2147483648

/-- Deterministic pseudo-shuffle: order the positions by their seeded key. -/
def shuffleBySeed (seed : ℕ) (xs : List Sample) : List Sample :=
  (xs.enum.insertionSort
    (fun a b => splitKey seed a.1 ≤ splitKey seed b.1)).map Prod.snd

/-- Modelled from the spec: `sklearn.model_selection.train_test_split` is
library code absent from this repository; the spec states that `main` "splits
data 80/20, stratified by label, deterministic given seed".  The model
pseudo-shuffles the samples with the seed, groups them by class id, sends a
fifth of each class to the validation side and the rest to the training side,
returning (train, validation). -/
def train_test_split (seed numClasses : ℕ) (labelOf : Sample → ℕ)
    (xs : List Sample) : List Sample × List Sample :=
  let shuffled := shuffleBySeed seed xs
  let groups :=
    (List.range numClasses).map (fun c => shuffled.filter (fun a => labelOf a == c))
  ((groups.map (fun g => g.drop (g.length / 5))).flatten,
   (groups.map (fun g => g.take (g.length / 5))).flatten)

/-- Zero matrix with `r` rows and `c` columns. -/
def zeros2 (r c : ℕ) : List (List ℚ) :=
  List.replicate r (List.replicate c 0)

/-- A concrete trained instance of `make_model n`, with all weights zero:
training determines only the numeric values, which no claim constrains. -/
def zeroTrain (n : ℕ) : List TrainedDense :=
  [⟨"dense_128", .relu, zeros2 63 128, List.replicate 128 0⟩,
   ⟨"dense_64", .relu, zeros2 128 64, List.replicate 64 0⟩,
   ⟨"dense_logits", .softmax, zeros2 64 n, List.replicate n 0⟩]

/-- A well-formed dataset row with the given label and an all-zero vector. -/
def demoRow (label : String) : JVal :=
  .jobj [("label", .jstr label), ("x", .jarr (List.replicate 63 (.jnum 0))),
         ("t", .jnum 1732450000000)]

/-- A small dataset with two labels, two samples each. -/
def demoRows : List JVal :=
  [demoRow "A", demoRow "A", demoRow "B", demoRow "B"]

/-- A row whose failure mode the claims describe: the malformations that make
`load_samples` skip a row (not an object, label not a single alphabetic
character after normalization, or `x` not a list of 63 convertible values). -/
def rowMalformed (row : JVal) : Bool :=
  match row with
  | .jobj fields =>
      !(isSingleAlpha (normLabel fields)) || (rowVec fields).isNone
  | _ => true

lemma mapFloat_length {xs : List JVal} {qs : List ℚ} (h : mapFloat xs = some qs) :
    qs.length = xs.length := by
  induction xs generalizing qs with
  | nil => simp [mapFloat] at h; simp [← h]
  | cons v vs ih =>
      rw [mapFloat] at h
      cases h1 : pyFloat v <;> rw [h1] at h
      · exact absurd h (by simp)
      · cases h2 : mapFloat vs <;> rw [h2] at h
        · exact absurd h (by simp)
        · simp only [Option.some.injEq] at h
          subst h
          simp [ih h2]

lemma rowVec_length {fields : List (String × JVal)} {v : List ℚ}
    (h : rowVec fields = some v) : v.length = 63 := by
  unfold rowVec at h
  split at h
  · split at h
    · rename_i xs hlen
      rw [mapFloat_length h]
      simpa using hlen
    · exact absurd h (by simp)
  · exact absurd h (by simp)

lemma parseRow_some_elim {ij : Bool} {idx : ℕ} {row : JVal} {s : Sample}
    (h : parseRow ij idx row = some s) :
    ∃ fields, row = .jobj fields ∧ s.label = normLabel fields ∧ s.idx = idx ∧
      isSingleAlpha s.label = true ∧ rowVec fields = some s.x ∧
      (!ij && DEFAULT_EXCLUDED.contains s.label) = false := by
  cases row with
  | jobj fields =>
      refine ⟨fields, rfl, ?_⟩
      by_cases h1 : isSingleAlpha (normLabel fields) = true
      · by_cases h2 : (!ij && DEFAULT_EXCLUDED.contains (normLabel fields)) = true
        · have h2' : ij = false ∧ normLabel fields ∈ DEFAULT_EXCLUDED := by simpa using h2
          simp [parseRow, h1, h2] at h
          exact absurd h2'.2 (h.1 h2'.1)
        · cases h3 : rowVec fields with
          | none => simp [parseRow, h1, h2, h3] at h
          | some vec =>
              simp [parseRow, h1, h2, h3] at h
              obtain ⟨-, h⟩ := h
              subst h
              exact ⟨rfl, rfl, h1, rfl, Bool.eq_false_iff.mpr h2⟩
      · simp [parseRow, h1] at h
  | jnull => simp [parseRow] at h
  | jbool b => simp [parseRow] at h
  | jnum q => simp [parseRow] at h
  | jstr t => simp [parseRow] at h
  | jarr xs => simp [parseRow] at h

lemma parseRow_eq_none_iff {ij : Bool} {idx : ℕ} {row : JVal} :
    parseRow ij idx row = none ↔
      (rowMalformed row = true ∨
        ∃ fields, row = .jobj fields ∧
          (!ij && DEFAULT_EXCLUDED.contains (normLabel fields)) = true) := by
  cases row with
  | jobj fields =>
      by_cases h1 : isSingleAlpha (normLabel fields) = true
      · by_cases h2 : (!ij && DEFAULT_EXCLUDED.contains (normLabel fields)) = true
        · have h2' : ij = false ∧ normLabel fields ∈ DEFAULT_EXCLUDED := by simpa using h2
          simp [parseRow, rowMalformed, h1, h2, h2'.1, h2'.2]
        · cases h3 : rowVec fields with
          | none => simp [parseRow, rowMalformed, h1, h2, h3]
          | some vec => simp [parseRow, rowMalformed, h1, h2, h3]
      · simp [parseRow, rowMalformed, h1]
  | jnull => simp [parseRow, rowMalformed]
  | jbool b => simp [parseRow, rowMalformed]
  | jnum q => simp [parseRow, rowMalformed]
  | jstr t => simp [parseRow, rowMalformed]
  | jarr xs => simp [parseRow, rowMalformed]

lemma parseRow_malformed_none {ij : Bool} {idx : ℕ} {row : JVal}
    (h : rowMalformed row = true) : parseRow ij idx row = none :=
  parseRow_eq_none_iff.mpr (Or.inl h)

lemma parseRow_idx {ij : Bool} {idx : ℕ} {row : JVal} {s : Sample}
    (h : parseRow ij idx row = some s) : s.idx = idx := by
  obtain ⟨fields, -, -, hidx, -⟩ := parseRow_some_elim h
  exact hidx

lemma validFrom_facts (ij : Bool) (rows : List JVal) (k : ℕ) :
    ((List.enumFrom k rows).filterMap (fun p => parseRow ij p.1 p.2)).Pairwise
        (fun a b => a.idx < b.idx) ∧
    ∀ s ∈ (List.enumFrom k rows).filterMap (fun p => parseRow ij p.1 p.2),
      k ≤ s.idx ∧ (rows.get? (s.idx - k)).bind (parseRow ij s.idx) = some s := by
  induction rows generalizing k with
  | nil => simp
  | cons r rs ih =>
      rw [List.enumFrom_cons]
      cases hr : parseRow ij k r with
      | none =>
          simp only [List.filterMap_cons, hr]
          refine ⟨(ih (k + 1)).1, fun s hs => ?_⟩
          obtain ⟨hk, hbind⟩ := (ih (k + 1)).2 s hs
          refine ⟨le_trans (Nat.le_succ k) hk, ?_⟩
          have hdk : s.idx - k = (s.idx - (k + 1)) + 1 := by omega
          rw [hdk, List.get?_cons_succ]
          exact hbind
      | some s₀ =>
          simp only [List.filterMap_cons, hr]
          have hidx₀ : s₀.idx = k := parseRow_idx hr
          constructor
          · rw [List.pairwise_cons]
            refine ⟨fun b hb => ?_, (ih (k + 1)).1⟩
            have := ((ih (k + 1)).2 b hb).1
            omega
          · intro s hs
            rcases List.mem_cons.mp hs with hs | hs
            · subst hs
              refine ⟨le_of_eq hidx₀.symm, ?_⟩
              rw [hidx₀, Nat.sub_self, List.get?_cons_zero]
              simpa [hidx₀] using hr
            · obtain ⟨hk, hbind⟩ := (ih (k + 1)).2 s hs
              refine ⟨le_trans (Nat.le_succ k) hk, ?_⟩
              have hdk : s.idx - k = (s.idx - (k + 1)) + 1 := by omega
              rw [hdk, List.get?_cons_succ]
              exact hbind

lemma validSamples_facts (ij : Bool) (rows : List JVal) :
    (validSamples ij rows).Pairwise (fun a b => a.idx < b.idx) ∧
    ∀ s ∈ validSamples ij rows,
      (rows.get? s.idx).bind (parseRow ij s.idx) = some s := by
  have h := validFrom_facts ij rows 0
  rw [← List.enum_eq_enumFrom] at h
  exact ⟨h.1, fun s hs => by simpa using (h.2 s hs).2⟩

lemma load_samples_jarr (ij : Bool) (rows : List JVal) :
    load_samples ij (.jarr rows) = .ok (validSamples ij rows) ∨
      (load_samples ij (.jarr rows) = .error "No valid samples found after filtering" ∧
        validSamples ij rows = []) := by
  unfold load_samples
  by_cases h : (validSamples ij rows).isEmpty
  · exact Or.inr ⟨by simp [h], List.isEmpty_iff.mp h⟩
  · exact Or.inl (by simp [h])

lemma sortedLabels_perm (ss : List Sample) :
    (sortedLabels ss).Perm ((ss.map Sample.label).dedup) :=
  List.perm_insertionSort strLe _

lemma sortedLabels_nodup (ss : List Sample) : (sortedLabels ss).Nodup :=
  ((sortedLabels_perm ss).nodup_iff).mpr (List.nodup_dedup _)

lemma sortedLabels_sorted (ss : List Sample) :
    (sortedLabels ss).Sorted strLe :=
  List.sorted_insertionSort strLe _

lemma mem_sortedLabels {ss : List Sample} {l : String} :
    l ∈ sortedLabels ss ↔ l ∈ ss.map Sample.label :=
  ((sortedLabels_perm ss).mem_iff).trans (List.mem_dedup)

lemma sortedLabels_length (ss : List Sample) :
    (sortedLabels ss).length = ((ss.map Sample.label).dedup).length :=
  (sortedLabels_perm ss).length_eq

lemma indexOf?_of_mem {α : Type} [DecidableEq α] {a : α} {l : List α}
    (h : a ∈ l) : l.indexOf? a = some (l.indexOf a) := by
  induction l with
  | nil => simp at h
  | cons b t ih =>
      rw [List.indexOf?_cons]
      by_cases hb : b = a
      · subst hb
        simp [List.indexOf_cons_self]
      · rw [if_neg (by simp [hb]), List.indexOf_cons_ne _ hb]
        have ht : a ∈ t := by
          rcases List.mem_cons.mp h with h | h
          · exact absurd h.symm hb
          · exact h
        simp [ih ht]

lemma realizes_elim {n : ℕ} {m : List TrainedDense}
    (h : realizes (make_model n) m = true) :
    ∃ l₁ l₂ l₃, m = [l₁, l₂, l₃] ∧
      layerWF l₁ "dense_128" .relu 63 128 = true ∧
      layerWF l₂ "dense_64" .relu 128 64 = true ∧
      layerWF l₃ "dense_logits" .softmax 64 n = true := by
  rcases m with - | ⟨l₁, - | ⟨l₂, - | ⟨l₃, - | ⟨l₄, rest⟩⟩⟩⟩
  · simp [realizes, make_model, realizesFrom] at h
  · simp [realizes, make_model, realizesFrom] at h
  · simp [realizes, make_model, realizesFrom] at h
  · refine ⟨l₁, l₂, l₃, rfl, ?_⟩
    simpa [realizes, make_model, realizesFrom, Bool.and_eq_true] using h
  · simp [realizes, make_model, realizesFrom] at h

lemma layerWF_elim {l : TrainedDense} {name : String} {act : Activation}
    {ins outs : ℕ} (h : layerWF l name act ins outs = true) :
    l.name = name ∧ l.act = act ∧ l.kernel.length = ins ∧
      (∀ row ∈ l.kernel, row.length = outs) ∧ l.bias.length = outs := by
  simp only [layerWF, kernelShapeOk, Bool.and_eq_true, beq_iff_eq,
    List.all_eq_true] at h
  exact ⟨h.1.1.1, h.1.1.2, h.1.2.1, fun row hr => by simpa using h.1.2.2 row hr,
    h.2⟩

lemma exportLayerOf_sizes {l : TrainedDense} {name : String} {act : Activation}
    {ins outs : ℕ} (h : layerWF l name act ins outs = true) (hpos : 0 < ins) :
    (exportLayerOf l).input_size = ins ∧ (exportLayerOf l).output_size = outs := by
  obtain ⟨-, -, hk, hrows, -⟩ := layerWF_elim h
  refine ⟨hk, ?_⟩
  cases hker : l.kernel with
  | nil =>
      rw [hker] at hk
      simp at hk
      omega
  | cons r t =>
      have hr : r ∈ l.kernel := by
        rw [hker]
        exact List.mem_cons_self r t
      simp [exportLayerOf, hker, hrows r hr]

lemma export_sizes {n : ℕ} {m : List TrainedDense} (labels : List String)
    (h : realizes (make_model n) m = true) :
    (export_browser_model m labels).layers.map
        (fun e => (e.input_size, e.output_size))
      = [(63, 128), (128, 64), (64, n)] := by
  obtain ⟨l₁, l₂, l₃, rfl, h1, h2, h3⟩ := realizes_elim h
  have s1 := exportLayerOf_sizes h1 (by norm_num)
  have s2 := exportLayerOf_sizes h2 (by norm_num)
  have s3 := exportLayerOf_sizes h3 (by norm_num)
  simp [export_browser_model, s1.1, s1.2, s2.1, s2.2, s3.1, s3.2]

lemma checkCounts_ok_iff {labels : List String} {y : List ℕ} :
    checkCounts labels y = .ok () ↔
      ∀ p ∈ labels.enum, ¬ y.countP (fun j => j == p.1) < 2 := by
  unfold checkCounts
  cases hf : labels.enum.find? (fun p => decide (y.countP (fun j => j == p.1) < 2)) with
  | some p =>
      constructor
      · intro h
        exact absurd h (by simp)
      · intro hall
        have hp := List.find?_some hf
        simp only [decide_eq_true_eq] at hp
        exact absurd hp (hall p (List.mem_of_find?_eq_some hf))
  | none =>
      rw [List.find?_eq_none] at hf
      exact ⟨fun _ p hp => by simpa using hf p hp, fun _ => rfl⟩

lemma checkCounts_error_elim {labels : List String} {y : List ℕ} {e : String}
    (h : checkCounts labels y = .error e) :
    ∃ p ∈ labels.enum, y.countP (fun j => j == p.1) < 2 := by
  unfold checkCounts at h
  cases hf : labels.enum.find? (fun p => decide (y.countP (fun j => j == p.1) < 2)) with
  | none =>
      rw [hf] at h
      exact absurd h (by simp)
  | some p =>
      have hp := List.find?_some hf
      simp only [decide_eq_true_eq] at hp
      exact ⟨p, List.mem_of_find?_eq_some hf, hp⟩

lemma enum_mem_elim {L : List String} {p : ℕ × String} (h : p ∈ L.enum) :
    ∃ hlt : p.1 < L.length, L.get ⟨p.1, hlt⟩ = p.2 := by
  have hg := List.mem_enum_iff_get?.mp h
  rwa [List.get?_eq_some] at hg

lemma mem_enum_of_mem {L : List String} {l : String} (h : l ∈ L) :
    (L.indexOf l, l) ∈ L.enum := by
  refine List.mem_enum_iff_get?.mpr ?_
  rw [List.get?_eq_some]
  exact ⟨List.indexOf_lt_length.mpr h, List.indexOf_get _⟩

lemma indexOf_get_self {L : List String} (hnd : L.Nodup) {i : ℕ}
    (hi : i < L.length) : L.indexOf (L.get ⟨i, hi⟩) = i := by
  have hmem : L.get ⟨i, hi⟩ ∈ L := List.get_mem L i hi
  have hlt : L.indexOf (L.get ⟨i, hi⟩) < L.length :=
    List.indexOf_lt_length.mpr hmem
  have hget := List.indexOf_get hlt
  have := hnd.get_inj_iff.mp hget
  exact congrArg Fin.val this

lemma countP_classIds {ss : List Sample} {i : ℕ}
    (hi : i < (sortedLabels ss).length) :
    (ss.map (fun s => (sortedLabels ss).indexOf s.label)).countP
        (fun j => j == i)
      = ss.countP (fun s => s.label == (sortedLabels ss).get ⟨i, hi⟩) := by
  rw [List.countP_map]
  refine List.countP_congr (fun s hs => ?_)
  have hmem : s.label ∈ sortedLabels ss :=
    mem_sortedLabels.mpr (List.mem_map_of_mem Sample.label hs)
  simp only [Function.comp_apply, beq_iff_eq]
  constructor
  · intro h
    subst h
    exact (List.indexOf_get hi).symm
  · intro h
    rw [h]
    exact indexOf_get_self (sortedLabels_nodup ss) hi

lemma pipeline_jarr_eval (ij : Bool) (rows : List JVal)
    (train : ℕ → List TrainedDense) :
    pipeline ij (.jarr rows) train =
      (if (validSamples ij rows).isEmpty then
        .error "No valid samples found after filtering"
      else if (sortedLabels (validSamples ij rows)).length < 2 then
        .error "Need at least 2 distinct labels to train"
      else
        match checkCounts (sortedLabels (validSamples ij rows))
            ((validSamples ij rows).map
              (fun s => (sortedLabels (validSamples ij rows)).indexOf s.label)) with
        | .error e => .error e
        | .ok _ =>
            .ok (export_browser_model
              (train (sortedLabels (validSamples ij rows)).length)
              (sortedLabels (validSamples ij rows)))) := by
  unfold pipeline load_samples
  by_cases hE : (validSamples ij rows).isEmpty
  · simp [hE, Bind.bind, Except.bind]
  · simp only [hE, Bool.false_eq_true, if_false, if_neg]
    by_cases h2 : (sortedLabels (validSamples ij rows)).length < 2
    · simp [h2, Bind.bind, Except.bind]
    · cases hC : checkCounts (sortedLabels (validSamples ij rows))
          ((validSamples ij rows).map
            (fun s => (sortedLabels (validSamples ij rows)).indexOf s.label)) with
      | error e =>
          simp [h2, hC, Bind.bind, Except.bind, Functor.map, Except.map]
      | ok u =>
          cases u
          simp [h2, hC, Bind.bind, Except.bind, Functor.map, Except.map,
            Pure.pure, Except.pure]

lemma sortedLabels_nil : sortedLabels [] = [] := rfl

lemma pipeline_ok_elim {ij : Bool} {rows : List JVal}
    {train : ℕ → List TrainedDense} {payload : Payload}
    (h : pipeline ij (.jarr rows) train = .ok payload) :
    payload = export_browser_model
        (train (sortedLabels (validSamples ij rows)).length)
        (sortedLabels (validSamples ij rows)) := by
  rw [pipeline_jarr_eval] at h
  by_cases hE : (validSamples ij rows).isEmpty
  · rw [if_pos hE] at h
    exact absurd h (by simp)
  · rw [if_neg hE] at h
    by_cases h2 : (sortedLabels (validSamples ij rows)).length < 2
    · rw [if_pos h2] at h
      exact absurd h (by simp)
    · rw [if_neg h2] at h
      cases hC : checkCounts (sortedLabels (validSamples ij rows))
          ((validSamples ij rows).map
            (fun s => (sortedLabels (validSamples ij rows)).indexOf s.label)) with
      | error e =>
          rw [hC] at h
          simp at h
      | ok u =>
          cases u
          rw [hC] at h
          simpa using h.symm

lemma pipeline_err_iff (ij : Bool) (rows : List JVal)
    (train : ℕ → List TrainedDense) :
    isErr (pipeline ij (.jarr rows) train) = true ↔
      ((sortedLabels (validSamples ij rows)).length < 2 ∨
        ∃ l ∈ sortedLabels (validSamples ij rows),
          (validSamples ij rows).countP (fun s => s.label == l) < 2) := by
  rw [pipeline_jarr_eval]
  by_cases hE : (validSamples ij rows).isEmpty
  · rw [if_pos hE]
    have hnil : validSamples ij rows = [] := List.isEmpty_iff.mp hE
    constructor
    · intro _
      left
      rw [hnil, sortedLabels_nil]
      simp
    · intro _
      rfl
  · rw [if_neg hE]
    by_cases h2 : (sortedLabels (validSamples ij rows)).length < 2
    · rw [if_pos h2]
      exact ⟨fun _ => Or.inl h2, fun _ => rfl⟩
    · rw [if_neg h2]
      cases hC : checkCounts (sortedLabels (validSamples ij rows))
          ((validSamples ij rows).map
            (fun s => (sortedLabels (validSamples ij rows)).indexOf s.label)) with
      | error e =>
          constructor
          · intro _
            right
            obtain ⟨p, hpmem, hplt⟩ := checkCounts_error_elim hC
            obtain ⟨hlt, hget⟩ := enum_mem_elim hpmem
            rw [countP_classIds hlt] at hplt
            exact ⟨p.2, by rw [← hget]; exact List.get_mem _ _ _,
              by rw [← hget]; exact hplt⟩
          · intro _
            rfl
      | ok u =>
          cases u
          constructor
          · intro h
            simp [isErr] at h
          · intro hcond
            exfalso
            rcases hcond with h2x | ⟨l, hl, hcnt⟩
            · exact h2 h2x
            · have hok := checkCounts_ok_iff.mp hC
              have hlt : (sortedLabels (validSamples ij rows)).indexOf l
                  < (sortedLabels (validSamples ij rows)).length :=
                List.indexOf_lt_length.mpr hl
              apply hok _ (mem_enum_of_mem hl)
              rw [countP_classIds hlt, List.indexOf_get hlt]
              exact hcnt

lemma pipeline_ok_of {ij : Bool} {rows : List JVal}
    {train : ℕ → List TrainedDense}
    (h2 : 2 ≤ (sortedLabels (validSamples ij rows)).length)
    (hcnt : ∀ l ∈ sortedLabels (validSamples ij rows),
      2 ≤ (validSamples ij rows).countP (fun s => s.label == l)) :
    pipeline ij (.jarr rows) train =
      .ok (export_browser_model
        (train (sortedLabels (validSamples ij rows)).length)
        (sortedLabels (validSamples ij rows))) := by
  have hne : ¬ (validSamples ij rows).isEmpty = true := by
    intro hc
    rw [List.isEmpty_iff.mp hc, sortedLabels_nil] at h2
    simp at h2
  rw [pipeline_jarr_eval, if_neg hne, if_neg (by omega)]
  have hok : checkCounts (sortedLabels (validSamples ij rows))
      ((validSamples ij rows).map
        (fun s => (sortedLabels (validSamples ij rows)).indexOf s.label))
      = .ok () := by
    refine checkCounts_ok_iff.mpr (fun p hp => ?_)
    obtain ⟨hlt, hget⟩ := enum_mem_elim hp
    rw [countP_classIds hlt]
    have hmem : (sortedLabels (validSamples ij rows)).get ⟨p.1, hlt⟩
        ∈ sortedLabels (validSamples ij rows) := List.get_mem _ _ _
    have := hcnt _ hmem
    omega
  rw [hok]

lemma sum_map_range_eq_single (f : ℕ → ℕ) (n k : ℕ) (hk : k < n)
    (h0 : ∀ j, j < n → j ≠ k → f j = 0) :
    ((List.range n).map f).sum = f k := by
  induction n with
  | zero => omega
  | succ n ih =>
      rw [List.range_succ, List.map_append, List.sum_append]
      by_cases hkn : k = n
      · subst hkn
        have hz : ((List.range k).map f).sum = 0 :=
          List.sum_eq_zero (fun x hx => by
            obtain ⟨j, hj, rfl⟩ := List.mem_map.mp hx
            have hjk := List.mem_range.mp hj
            exact h0 j (by omega) (by omega))
        simp [hz]
      · have hk' : k < n := by omega
        rw [ih hk' (fun j hj hjk => h0 j (by omega) hjk)]
        have hfn : f n = 0 := h0 n (by omega) (fun he => hkn he.symm)
        simp [hfn]

lemma shuffleBySeed_perm (seed : ℕ) (xs : List Sample) :
    (shuffleBySeed seed xs).Perm xs := by
  unfold shuffleBySeed
  have h := List.perm_insertionSort
    (fun a b : ℕ × Sample => splitKey seed a.1 ≤ splitKey seed b.1) xs.enum
  have h2 := h.map Prod.snd
  rwa [List.enum_map_snd] at h2

lemma count_filter_class (a : Sample) (l : List Sample) (labelOf : Sample → ℕ)
    (c : ℕ) :
    (l.filter (fun x => labelOf x == c)).count a
      = if labelOf a = c then l.count a else 0 := by
  by_cases hc : labelOf a = c
  · rw [if_pos hc]
    exact List.count_filter (by simpa using hc)
  · rw [if_neg hc]
    rw [List.count_eq_zero]
    intro hmem
    exact hc (by simpa using (List.mem_filter.mp hmem).2)

lemma count_drop_add_count_take (a : Sample) (g : List Sample) (k : ℕ) :
    (g.drop k).count a + (g.take k).count a = g.count a := by
  conv_rhs => rw [← List.take_append_drop k g]
  rw [List.count_append]
  omega

lemma train_test_split_partition (seed n : ℕ) (labelOf : Sample → ℕ)
    (xs : List Sample) (hlab : ∀ x ∈ xs, labelOf x < n) :
    ((train_test_split seed n labelOf xs).1
        ++ (train_test_split seed n labelOf xs).2).Perm xs := by
  rw [List.perm_iff_count]
  intro a
  have hshuf : (shuffleBySeed seed xs).count a = xs.count a :=
    (shuffleBySeed_perm seed xs).count_eq a
  unfold train_test_split
  simp only [List.count_append, List.count_flatten, List.map_map]
  rw [← List.sum_map_add]
  simp only [Function.comp_apply]
  have hfun : ∀ c ∈ List.range n,
      (List.count a (((shuffleBySeed seed xs).filter (fun x => labelOf x == c)).drop
          (((shuffleBySeed seed xs).filter (fun x => labelOf x == c)).length / 5))
        + List.count a (((shuffleBySeed seed xs).filter (fun x => labelOf x == c)).take
          (((shuffleBySeed seed xs).filter (fun x => labelOf x == c)).length / 5)))
      = (if labelOf a = c then List.count a xs else 0) := by
    intro c hc
    rw [count_drop_add_count_take, count_filter_class, hshuf]
  rw [List.map_congr_left hfun]
  by_cases hmem : a ∈ xs
  · rw [sum_map_range_eq_single _ n (labelOf a) (hlab a hmem)
      (fun j hj hja => by rw [if_neg (fun he => hja he.symm)])]
    rw [if_pos rfl]
  · have hz : xs.count a = 0 := List.count_eq_zero.mpr hmem
    rw [hz]
    exact List.sum_eq_zero (fun x hx => by
      obtain ⟨j, hj, rfl⟩ := List.mem_map.mp hx
      by_cases hja : labelOf a = j <;> simp [hja, hz])

lemma zeroTrain_realizes : ∀ k, realizes (make_model k) (zeroTrain k) = true := by
  intro k
  simp [realizes, make_model, zeroTrain, realizesFrom, layerWF, kernelShapeOk,
    zeros2, List.all_eq_true, List.mem_replicate]

/-- C1: for every successful run (any dataset and any trained realization of
`make_model`), the exported `layers` list has length exactly 3, and the
recorded sizes chain as 63 → 128 → 64 → number of classes: the first layer has
input_size 63, the first two layers have output sizes 128 and 64, each later
layer's input_size equals the previous layer's output_size, and the final
layer's output_size equals the number of classes (the length of the exported
label list). -/
theorem C1_export_topology (ij : Bool) (rows : List JVal)
    (train : ℕ → List TrainedDense) (payload : Payload)
    (hWF : ∀ k, realizes (make_model k) (train k) = true)
    (hok : pipeline ij (.jarr rows) train = .ok payload) :
    payload.layers.length = 3 ∧
    payload.layers.map (fun e => (e.input_size, e.output_size))
      = [(63, 128), (128, 64), (64, payload.labels.length)] := by
  have hpl := pipeline_ok_elim hok
  subst hpl
  have hs := export_sizes (sortedLabels (validSamples ij rows))
    (hWF (sortedLabels (validSamples ij rows)).length)
  constructor
  · have hlen := congrArg List.length hs
    simpa using hlen
  · rw [hs]
    rfl

set_option maxRecDepth 100000 in
theorem C1_export_topology_witness :
    (export_browser_model (zeroTrain 2) ["A", "B"]).layers.length = 3 ∧
    (export_browser_model (zeroTrain 2) ["A", "B"]).layers.map
        (fun e => (e.input_size, e.output_size))
      = [(63, 128), (128, 64),
         (64, (export_browser_model (zeroTrain 2) ["A", "B"]).labels.length)] :=
  C1_export_topology false demoRows zeroTrain
    (export_browser_model (zeroTrain 2) ["A", "B"]) zeroTrain_realizes
    (by decide)

/-- C2: for every dataset whose valid samples span at least 2 distinct labels,
each with at least 2 samples, the pipeline succeeds and writes a payload whose
`labels` list has length equal to the number of distinct labels among the
valid samples, and whose final layer's `output_size` equals that same count. -/
theorem C2_labels_count (ij : Bool) (rows : List JVal)
    (train : ℕ → List TrainedDense)
    (hWF : ∀ k, realizes (make_model k) (train k) = true)
    (h2 : 2 ≤ (sortedLabels (validSamples ij rows)).length)
    (hcnt : ∀ l ∈ sortedLabels (validSamples ij rows),
      2 ≤ (validSamples ij rows).countP (fun s => s.label == l)) :
    pipeline ij (.jarr rows) train =
      .ok (export_browser_model
        (train (sortedLabels (validSamples ij rows)).length)
        (sortedLabels (validSamples ij rows))) ∧
    (export_browser_model (train (sortedLabels (validSamples ij rows)).length)
        (sortedLabels (validSamples ij rows))).labels.length
      = ((validSamples ij rows).map Sample.label).dedup.length ∧
    ((export_browser_model (train (sortedLabels (validSamples ij rows)).length)
        (sortedLabels (validSamples ij rows))).layers.map
        ExportLayer.output_size).getLast?
      = some (((validSamples ij rows).map Sample.label).dedup.length) := by
  refine ⟨pipeline_ok_of h2 hcnt, sortedLabels_length _, ?_⟩
  have hs := export_sizes (sortedLabels (validSamples ij rows))
    (hWF (sortedLabels (validSamples ij rows)).length)
  have hmap := congrArg (List.map Prod.snd) hs
  rw [List.map_map] at hmap
  have hout : (export_browser_model
      (train (sortedLabels (validSamples ij rows)).length)
      (sortedLabels (validSamples ij rows))).layers.map ExportLayer.output_size
      = [128, 64, (sortedLabels (validSamples ij rows)).length] := by
    simpa using hmap
  rw [hout, ← sortedLabels_length]
  rfl

set_option maxRecDepth 100000 in
theorem C2_labels_count_witness :
    pipeline false (.jarr demoRows) zeroTrain =
      .ok (export_browser_model
        (zeroTrain (sortedLabels (validSamples false demoRows)).length)
        (sortedLabels (validSamples false demoRows))) ∧
    (export_browser_model
        (zeroTrain (sortedLabels (validSamples false demoRows)).length)
        (sortedLabels (validSamples false demoRows))).labels.length
      = ((validSamples false demoRows).map Sample.label).dedup.length ∧
    ((export_browser_model
        (zeroTrain (sortedLabels (validSamples false demoRows)).length)
        (sortedLabels (validSamples false demoRows))).layers.map
        ExportLayer.output_size).getLast?
      = some (((validSamples false demoRows).map Sample.label).dedup.length) :=
  C2_labels_count false demoRows zeroTrain zeroTrain_realizes
    (by decide) (by decide)

/-- C3: every exported dense layer carries the activation tag `"relu"` exactly
when its activation function is ReLU, and `"linear"` in every other case; in
particular the final softmax layer of `make_model` is exported with tag
`"linear"`. -/
theorem C3_activation_tags (m : List TrainedDense) (labels : List String)
    (n : ℕ) (hWF : realizes (make_model n) m = true) :
    (∀ i l, m.get? i = some l →
      ((export_browser_model m labels).layers.get? i).map ExportLayer.activation
        = some (if l.act = .relu then "relu" else "linear")) ∧
    ((export_browser_model m labels).layers.map ExportLayer.activation).getLast?
      = some "linear" := by
  constructor
  · intro i l hi
    simp only [export_browser_model, List.get?_map, hi, Option.map_some]
    cases hact : l.act <;> simp [exportLayerOf, actName, hact]
  · obtain ⟨l₁, l₂, l₃, rfl, h1, h2, h3⟩ := realizes_elim hWF
    obtain ⟨-, ha3, -⟩ := layerWF_elim h3
    simp [export_browser_model, exportLayerOf, ha3, actName]

set_option maxRecDepth 100000 in
theorem C3_activation_tags_witness :
    ((export_browser_model (zeroTrain 2) ["A", "B"]).layers.get? 2).map
        ExportLayer.activation
      = some (if (⟨"dense_logits", .softmax, zeros2 64 2,
          List.replicate 2 0⟩ : TrainedDense).act = .relu
        then "relu" else "linear") ∧
    ((export_browser_model (zeroTrain 2) ["A", "B"]).layers.map
        ExportLayer.activation).getLast? = some "linear" :=
  ⟨(C3_activation_tags (zeroTrain 2) ["A", "B"] 2 (zeroTrain_realizes 2)).1 2
      ⟨"dense_logits", .softmax, zeros2 64 2, List.replicate 2 0⟩ (by decide),
   (C3_activation_tags (zeroTrain 2) ["A", "B"] 2 (zeroTrain_realizes 2)).2⟩

/-- C4: with the include flag unset, neither excluded letter ("J", "Z")
appears in the exported labels of any successful run; with the include flag
set, a row is kept exactly when it passes the generic validity checks — rows
labelled with the excluded letters are retained like any other valid row. -/
theorem C4_excluded_letters :
    (∀ rows train payload,
      pipeline false (.jarr rows) train = .ok payload →
        "J" ∉ payload.labels ∧ "Z" ∉ payload.labels) ∧
    (∀ idx row, (parseRow true idx row).isSome = !rowMalformed row) := by
  constructor
  · intro rows train payload hok
    have hpl := pipeline_ok_elim hok
    subst hpl
    constructor <;>
    · intro hmem
      obtain ⟨s, hs, hlab⟩ := List.mem_map.mp (mem_sortedLabels.mp hmem)
      obtain ⟨p, hp, hparse⟩ := List.mem_filterMap.mp hs
      obtain ⟨fields, -, -, -, -, -, hexc⟩ := parseRow_some_elim hparse
      rw [hlab] at hexc
      simp [DEFAULT_EXCLUDED] at hexc
  · intro idx row
    cases hp : parseRow true idx row with
    | some s =>
        have hm : rowMalformed row = false := by
          by_contra hc
          have hmt : rowMalformed row = true := by
            revert hc
            cases rowMalformed row <;> simp
          rw [parseRow_malformed_none hmt] at hp
          exact absurd hp (by simp)
        simp [hm]
    | none =>
        rcases parseRow_eq_none_iff.mp hp with hm | ⟨fields, -, hexc⟩
        · simp [hm]
        · simp at hexc

set_option maxRecDepth 100000 in
theorem C4_excluded_letters_witness :
    "J" ∉ (export_browser_model
        (zeroTrain (sortedLabels (validSamples false demoRows)).length)
        (sortedLabels (validSamples false demoRows))).labels ∧
    (parseRow true 0 (demoRow "J")).isSome = !rowMalformed (demoRow "J") :=
  ⟨(C4_excluded_letters.1 demoRows zeroTrain _ (by decide)).1,
   C4_excluded_letters.2 0 (demoRow "J")⟩

/-- C5: loading a JSON array never fails because of a malformed row: every row
that is not an object, or whose normalized label is not a single alphabetic
character, or whose `x` is not a list of exactly 63 convertible values, is
silently dropped; every kept sample has a vector of length exactly 63 and a
one-character alphabetic label; and the only loading error on array input is
the no-valid-samples error, raised exactly when nothing survives the filter. -/
theorem C5_row_validation (ij : Bool) (rows : List JVal) :
    (∀ idx row, rowMalformed row = true → parseRow ij idx row = none) ∧
    (∀ s ∈ validSamples ij rows,
      s.x.length = 63 ∧ s.label.length = 1 ∧
      s.label.toList.all Char.isAlpha = true) ∧
    (load_samples ij (.jarr rows) = .ok (validSamples ij rows) ∨
      (load_samples ij (.jarr rows)
          = .error "No valid samples found after filtering" ∧
        validSamples ij rows = [])) := by
  refine ⟨fun idx row => parseRow_malformed_none, ?_, load_samples_jarr ij rows⟩
  intro s hs
  obtain ⟨p, hp, hparse⟩ := List.mem_filterMap.mp hs
  obtain ⟨fields, -, -, -, halpha, hvec, -⟩ := parseRow_some_elim hparse
  simp only [isSingleAlpha, Bool.and_eq_true, beq_iff_eq] at halpha
  exact ⟨rowVec_length hvec, halpha.1, halpha.2⟩

set_option maxRecDepth 100000 in
theorem C5_row_validation_witness :
    parseRow false 5 (.jstr "noise") = none ∧
    (⟨"A", List.replicate 63 (0 : ℚ), 0⟩ : Sample).x.length = 63 ∧
    load_samples false (.jarr demoRows) = .ok (validSamples false demoRows) := by
  have h := C5_row_validation false demoRows
  refine ⟨h.1 5 (.jstr "noise") (by decide), ?_, ?_⟩
  · exact (h.2.1 ⟨"A", List.replicate 63 (0 : ℚ), 0⟩ (by decide)).1
  · rcases h.2.2 with hok | ⟨-, hnil⟩
    · exact hok
    · exact absurd hnil (by decide)

/-- C6: on a JSON-array dataset the pipeline raises a data error — stopping
before any training or file output — if and only if fewer than two distinct
labels remain among the valid samples, or some remaining label has fewer than
two samples. -/
theorem C6_data_error_iff (ij : Bool) (rows : List JVal)
    (train : ℕ → List TrainedDense) :
    isErr (pipeline ij (.jarr rows) train) = true ↔
      ((sortedLabels (validSamples ij rows)).length < 2 ∨
        ∃ l ∈ sortedLabels (validSamples ij rows),
          (validSamples ij rows).countP (fun s => s.label == l) < 2) :=
  pipeline_err_iff ij rows train

set_option maxRecDepth 100000 in
theorem C6_data_error_iff_witness :
    isErr (pipeline false (.jarr [demoRow "A", demoRow "A"]) zeroTrain)
      = true :=
  (C6_data_error_iff false [demoRow "A", demoRow "A"] zeroTrain).mpr
    (Or.inl (by decide))

/-- C7: the label index of `build_xy` is a bijection from the distinct labels,
taken in sorted order, onto the contiguous class ids 0..n-1: the sorted label
list has no duplicates, is sorted, contains exactly the labels of the samples,
every label maps to its index (which lies below n), distinct labels map to
distinct indices, every id below n is hit, and every sample's class id is the
index of its label in the sorted list. -/
theorem C7_label_index_bijection (samples : List Sample) :
    (sortedLabels samples).Nodup ∧
    (sortedLabels samples).Sorted strLe ∧
    (∀ l, l ∈ sortedLabels samples ↔ l ∈ samples.map Sample.label) ∧
    (∀ l ∈ sortedLabels samples,
      label_to_idx (sortedLabels samples) l
          = some ((sortedLabels samples).indexOf l) ∧
      (sortedLabels samples).indexOf l < (sortedLabels samples).length) ∧
    (∀ l₁ ∈ sortedLabels samples, ∀ l₂ ∈ sortedLabels samples,
      (sortedLabels samples).indexOf l₁ = (sortedLabels samples).indexOf l₂ →
        l₁ = l₂) ∧
    (∀ i, i < (sortedLabels samples).length →
      ∃ l ∈ sortedLabels samples, (sortedLabels samples).indexOf l = i) ∧
    (build_xy samples).2.1
      = samples.map (fun s => (sortedLabels samples).indexOf s.label) := by
  refine ⟨sortedLabels_nodup samples, sortedLabels_sorted samples,
    fun l => mem_sortedLabels,
    fun l hl => ⟨by rw [label_to_idx]; exact indexOf?_of_mem hl,
      List.indexOf_lt_length.mpr hl⟩,
    fun l₁ h₁ l₂ h₂ h => (List.indexOf_inj h₁ h₂).mp h,
    fun i hi => ⟨(sortedLabels samples).get ⟨i, hi⟩, List.get_mem _ _ _,
      indexOf_get_self (sortedLabels_nodup samples) hi⟩,
    rfl⟩

set_option maxRecDepth 100000 in
theorem C7_label_index_bijection_witness :
    label_to_idx (sortedLabels (validSamples false demoRows)) "B" = some 1 ∧
    (sortedLabels (validSamples false demoRows)).Nodup := by
  have h := C7_label_index_bijection (validSamples false demoRows)
  refine ⟨?_, h.1⟩
  rw [(h.2.2.2.1 "B" (by decide)).1]
  decide

/-- C8: two runs of the train/validation split with equal seed and equal data
produce the identical partition, and the two sides together are a permutation
of the input samples (the split is a partition of the dataset).  The splitter
itself is modelled from the spec, sklearn being outside the repository. -/
theorem C8_split_deterministic (seed₁ seed₂ n : ℕ) (labelOf : Sample → ℕ)
    (xs₁ xs₂ : List Sample) (hseed : seed₁ = seed₂) (hxs : xs₁ = xs₂)
    (hlab : ∀ x ∈ xs₁, labelOf x < n) :
    train_test_split seed₁ n labelOf xs₁
        = train_test_split seed₂ n labelOf xs₂ ∧
    ((train_test_split seed₁ n labelOf xs₁).1
        ++ (train_test_split seed₁ n labelOf xs₁).2).Perm xs₁ := by
  subst hseed
  subst hxs
  exact ⟨rfl, train_test_split_partition seed₁ n labelOf xs₁ hlab⟩

set_option maxRecDepth 100000 in
theorem C8_split_deterministic_witness :
    train_test_split 42 2
        (fun s => (sortedLabels (validSamples false demoRows)).indexOf s.label)
        (validSamples false demoRows)
      = train_test_split 42 2
        (fun s => (sortedLabels (validSamples false demoRows)).indexOf s.label)
        (validSamples false demoRows) ∧
    ((train_test_split 42 2
        (fun s => (sortedLabels (validSamples false demoRows)).indexOf s.label)
        (validSamples false demoRows)).1
      ++ (train_test_split 42 2
        (fun s => (sortedLabels (validSamples false demoRows)).indexOf s.label)
        (validSamples false demoRows)).2).Perm
      (validSamples false demoRows) :=
  C8_split_deterministic 42 42 2
    (fun s => (sortedLabels (validSamples false demoRows)).indexOf s.label)
    (validSamples false demoRows) (validSamples false demoRows)
    rfl rfl (by decide)

set_option maxRecDepth 100000 in
/-- C9 counterexample: loading is not deduplicated.  On the concrete input
holding the same valid row twice, the loaded collection contains two samples
with the same label and the same feature vector, contradicting the claim that
no two kept samples agree on label and vector. -/
theorem C9_counterexample :
    ¬ List.Pairwise (fun s₁ s₂ => ¬(s₁.label = s₂.label ∧ s₁.x = s₂.x))
      (validSamples false [demoRow "A", demoRow "A"]) := by
  decide

/-- C9 (amended): the loaded dataset is the ordered collection of samples the
validity filter keeps, one per valid row and not deduplicated: the original
indices are strictly increasing along the collection (so duplicates of a valid
row each contribute a sample, distinguished only by index), and each kept
sample is recovered by re-parsing the input row at its recorded index. -/
theorem C9_loading_not_dedup (ij : Bool) (rows : List JVal) :
    (validSamples ij rows).Pairwise (fun a b => a.idx < b.idx) ∧
    ∀ s ∈ validSamples ij rows,
      (rows.get? s.idx).bind (parseRow ij s.idx) = some s :=
  validSamples_facts ij rows

set_option maxRecDepth 100000 in
theorem C9_loading_not_dedup_witness :
    (([demoRow "A", demoRow "A"].get?
        ((⟨"A", List.replicate 63 (0 : ℚ), 1⟩ : Sample).idx)).bind
      (parseRow false (⟨"A", List.replicate 63 (0 : ℚ), 1⟩ : Sample).idx))
      = some ⟨"A", List.replicate 63 (0 : ℚ), 1⟩ :=
  (C9_loading_not_dedup false [demoRow "A", demoRow "A"]).2
    ⟨"A", List.replicate 63 (0 : ℚ), 1⟩ (by decide)

/-- C10: the exported weight matrix is the layer kernel serialized unchanged,
in input-major orientation: it has input_size rows (row i holding the outgoing
weights of input unit i, in the sense of the dense-layer semantics
`denseOutput`) and every row has length output_size, the recorded sizes being
the first and second dimensions of the matrix. -/
theorem C10_weights_orientation (m : List TrainedDense) (labels : List String)
    (n : ℕ) (hWF : realizes (make_model n) m = true) :
    (∀ i l, m.get? i = some l →
      ((export_browser_model m labels).layers.get? i).map ExportLayer.weights
        = some l.kernel) ∧
    (∀ e ∈ (export_browser_model m labels).layers,
      e.weights.length = e.input_size ∧
      (∀ row ∈ e.weights, row.length = e.output_size)) ∧
    (∀ i l, m.get? i = some l → ∀ input,
      ((export_browser_model m labels).layers.get? i).map
          (fun e => denseOutput e.weights e.biases input)
        = some (denseOutput l.kernel l.bias input)) := by
  refine ⟨?_, ?_, ?_⟩
  · intro i l hi
    simp only [export_browser_model, List.get?_map, hi, Option.map_some]
    rfl
  · intro e he
    obtain ⟨l, hl, rfl⟩ := List.mem_map.mp he
    refine ⟨rfl, ?_⟩
    obtain ⟨l₁, l₂, l₃, rfl, h1, h2, h3⟩ := realizes_elim hWF
    have hl3 : l = l₁ ∨ l = l₂ ∨ l = l₃ := by simpa using hl
    rcases hl3 with rfl | rfl | rfl
    · obtain ⟨-, -, -, hrows, -⟩ := layerWF_elim h1
      have hsz := exportLayerOf_sizes h1 (by norm_num)
      intro row hrow
      rw [hsz.2]
      exact hrows row hrow
    · obtain ⟨-, -, -, hrows, -⟩ := layerWF_elim h2
      have hsz := exportLayerOf_sizes h2 (by norm_num)
      intro row hrow
      rw [hsz.2]
      exact hrows row hrow
    · obtain ⟨-, -, -, hrows, -⟩ := layerWF_elim h3
      have hsz := exportLayerOf_sizes h3 (by norm_num)
      intro row hrow
      rw [hsz.2]
      exact hrows row hrow
  · intro i l hi input
    simp only [export_browser_model, List.get?_map, hi, Option.map_some]
    rfl

set_option maxRecDepth 100000 in
theorem C10_weights_orientation_witness :
    ((export_browser_model (zeroTrain 2) ["A", "B"]).layers.get? 0).map
        ExportLayer.weights
      = some (⟨"dense_128", .relu, zeros2 63 128,
          List.replicate 128 0⟩ : TrainedDense).kernel :=
  (C10_weights_orientation (zeroTrain 2) ["A", "B"] 2 (zeroTrain_realizes 2)).1
    0 ⟨"dense_128", .relu, zeros2 63 128, List.replicate 128 0⟩ (by decide)

end AslTrain
